import Mathlib

/-!
Verification of `src/model/jaxnerf_torch/model.py` (PeRFception).

Tensors are shallowly embedded as lists of rationals (a row vector), batches
as lists of rows.  `nn.Linear` becomes an explicit weight matrix and bias
vector together with a parameter identity `pid` standing for the identity of
the underlying PyTorch parameter object (fresh allocation at construction
models `nn.Linear`'s fresh parameter creation).  Fallible tensor operations
(`torch.split` with mismatched sizes, attribute access on layers that were
never constructed, Python unbound locals) are embedded in `Option`/`Except`.
-/

namespace PeRF

/-- A `nn.Linear(inF, outF)` layer: `pid` is the identity of the parameter
object, `weight` has `outF` rows of length `inF`, `bias` has length `outF`. -/
structure Linear where
  pid : ℕ
  weight : List (List ℚ)
  bias : List ℚ
deriving DecidableEq

instance : Inhabited Linear := ⟨⟨0, [], []⟩⟩

/-- Dot product of two equal-length vectors.  This is the raw arithmetic
only; it is meaningful just when both vectors have the same length, which
`Linear.applyChk` (the faithful embedding of `nn.Linear.__call__`) checks
before reaching it. -/
def dot : List ℚ → List ℚ → ℚ
  | a :: as, b :: bs => a * b + dot as bs
  | _, _ => 0

/-- The matrix arithmetic of a linear layer on a shape-correct input:
row-wise dot plus bias.  `Linear.applyChk` below adds `nn.Linear`'s
input-dimension check; theorems that rely on the layer being reached with a
shape-correct input (as the approved configurations guarantee) use this
arithmetic directly. -/
def Linear.apply (l : Linear) (x : List ℚ) : List ℚ :=
  List.zipWith (fun row b => dot row x + b) l.weight l.bias

/-- `nn.Linear.__call__` in full: PyTorch's `F.linear` raises a matmul
shape error (here `none`) when the input's last dimension differs from the
layer's `in_features` (the length of every weight row); on a shape-correct
input it performs the matrix arithmetic. -/
def Linear.applyChk (l : Linear) (x : List ℚ) : Option (List ℚ) :=
  if ∀ row ∈ l.weight, row.length = x.length then some (l.apply x) else none

/-- `F.relu` on a scalar. -/
def relu (q : ℚ) : ℚ := max q 0

/-- `F.relu` applied elementwise to a vector. -/
def reluV (v : List ℚ) : List ℚ := v.map relu

/-- The `NeRF` module state after `__init__`: attributes that are only
created in one of the two `use_viewdirs` branches are `Option`s (accessing
an absent attribute is a Python `AttributeError`, embedded as `none`). -/
structure NeRF where
  D : ℕ
  W : ℕ
  input_ch : ℕ
  input_ch_views : ℕ
  skips : List ℕ
  use_viewdirs : Bool
  pts_linears : List Linear
  views_linears : List Linear
  feature_linear : Option Linear
  alpha_linear : Option Linear
  rgb_linear : Option Linear
  output_linear : Option Linear
deriving DecidableEq

/-- Fresh construction of one `nn.Linear(inF, outF)`: parameter object
identity `pid`, entries drawn from the (abstract) initializers `wI`, `bI`. -/
def freshLinear (wI : ℕ → ℕ → ℕ → ℚ) (bI : ℕ → ℕ → ℚ) (pid inF outF : ℕ) : Linear :=
  ⟨pid,
   (List.range outF).map fun r => (List.range inF).map fun c => wI pid r c,
   (List.range outF).map fun r => bI pid r⟩

/-- `NeRF.__init__` (model.py lines 17-54).  `start` is the next fresh
parameter-object id; the second component of the result is the id counter
after construction.  `pts_linears` is
`[Linear(input_ch, W)] + [Linear(W, W) if i not in skips else Linear(W + input_ch, W) for i in range(D - 1)]`,
`views_linears` is the singleton `[Linear(input_ch_views + W, W // 2)]`, and
the heads depend on `use_viewdirs` exactly as in the source. -/
def NeRF.init (D W input_ch input_ch_views output_ch : ℕ) (skips : List ℕ)
    (use_viewdirs : Bool) (start : ℕ) (wI : ℕ → ℕ → ℕ → ℚ) (bI : ℕ → ℕ → ℚ) :
    NeRF × ℕ :=
  let fl := freshLinear wI bI
  let pts := fl start input_ch W ::
    (List.range (D - 1)).map (fun i =>
      if i ∈ skips then fl (start + 1 + i) (W + input_ch) W
      else fl (start + 1 + i) W W)
  let views := [fl (start + D) (input_ch_views + W) (W / 2)]
  if use_viewdirs then
    ({ D := D, W := W, input_ch := input_ch, input_ch_views := input_ch_views,
       skips := skips, use_viewdirs := use_viewdirs,
       pts_linears := pts, views_linears := views,
       feature_linear := some (fl (start + D + 1) W W),
       alpha_linear := some (fl (start + D + 2) W 1),
       rgb_linear := some (fl (start + D + 3) (W / 2) 3),
       output_linear := none }, start + D + 4)
  else
    ({ D := D, W := W, input_ch := input_ch, input_ch_views := input_ch_views,
       skips := skips, use_viewdirs := use_viewdirs,
       pts_linears := pts, views_linears := views,
       feature_linear := none, alpha_linear := none, rgb_linear := none,
       output_linear := some (fl (start + D + 1) W output_ch) }, start + D + 2)

/-- `torch.split(x, [n, m], dim=-1)`: errors (here `none`) unless the sizes
sum exactly to the dimension size; otherwise the two contiguous pieces. -/
def splitTwo (x : List ℚ) (n m : ℕ) : Option (List ℚ × List ℚ) :=
  if x.length = n + m then some (x.take n, x.drop n) else none

/-- The trunk loop of `NeRF.forward` (lines 60-65): for each indexed layer,
apply it, ReLU, and re-concatenate `input_pts` in front after each layer
whose index is in `skips`. -/
def ptsForward (input_pts : List ℚ) (skips : List ℕ) :
    List (ℕ × Linear) → List ℚ → List ℚ
  | [], h => h
  | (i, l) :: rest, h =>
      let h1 := reluV (l.apply h)
      let h2 := if i ∈ skips then input_pts ++ h1 else h1
      ptsForward input_pts skips rest h2

/-- The view-branch loop of `NeRF.forward` (lines 72-74): apply each layer of
`views_linears` followed by ReLU. -/
def viewsForward : List Linear → List ℚ → List ℚ
  | [], h => h
  | l :: rest, h => viewsForward rest (reluV (l.apply h))

/-- The trunk value: `h` after the `pts_linears` loop, starting from
`input_pts`. -/
def NeRF.trunk (net : NeRF) (input_pts : List ℚ) : List ℚ :=
  ptsForward input_pts net.skips net.pts_linears.enum input_pts

/-- `NeRF.forward` (lines 56-81) on one input row: the dataflow with the
`torch.split` size check; each layer application is the raw matrix
arithmetic (`Linear.apply`), faithful on the shape-consistent
configurations where no layer raises.  `NeRF.forwardChk` below additionally
carries `nn.Linear`'s per-layer input-dimension check and is used for
theorems whose truth depends on where the real layers raise;
`forwardChk_agree` shows the two agree whenever the checked one succeeds. -/
def NeRF.forward (net : NeRF) (x : List ℚ) : Option (List ℚ) := do
  let (input_pts, input_views) ← splitTwo x net.input_ch net.input_ch_views
  let h := net.trunk input_pts
  if net.use_viewdirs then
    let aL ← net.alpha_linear
    let fL ← net.feature_linear
    let alpha := aL.apply h
    let feature := fL.apply h
    let h1 := viewsForward net.views_linears (feature ++ input_views)
    let rL ← net.rgb_linear
    let rgb := rL.apply h1
    pure (rgb ++ alpha)
  else
    let oL ← net.output_linear
    pure (oL.apply h)

/-- `NeRF.forward` on a batch: row-wise application (the PyTorch layers act
on the last dimension). -/
def NeRF.forwardBatch (net : NeRF) : List (List ℚ) → Option (List (List ℚ))
  | [] => some []
  | x :: xs => do
      let y ← net.forward x
      let ys ← net.forwardBatch xs
      pure (y :: ys)

/-- The trunk loop (lines 60-65) with `nn.Linear`'s shape check: each layer
application may raise (`none`) on a width mismatch, which really happens
when a skip concat widens `h` beyond the next layer's `in_features`. -/
def ptsForwardChk (input_pts : List ℚ) (skips : List ℕ) :
    List (ℕ × Linear) → List ℚ → Option (List ℚ)
  | [], h => some h
  | (i, l) :: rest, h =>
      (l.applyChk h).bind fun h1 =>
        ptsForwardChk input_pts skips rest
          (if i ∈ skips then input_pts ++ reluV h1 else reluV h1)

/-- The view-branch loop (lines 72-74) with `nn.Linear`'s shape check. -/
def viewsForwardChk : List Linear → List ℚ → Option (List ℚ)
  | [], h => some h
  | l :: rest, h => (l.applyChk h).bind fun h1 => viewsForwardChk rest (reluV h1)

/-- The trunk value under the shape-checked loop. -/
def NeRF.trunkChk (net : NeRF) (input_pts : List ℚ) : Option (List ℚ) :=
  ptsForwardChk input_pts net.skips net.pts_linears.enum input_pts

/-- `NeRF.forward` (lines 56-81) on one input row, with every layer
application carrying `nn.Linear`'s input-dimension check, so that the
model raises exactly where the source would raise a matmul shape error
(e.g. a skip index equal to `D - 1`, which widens the trunk output beyond
the `Linear(W, _)` heads). -/
def NeRF.forwardChk (net : NeRF) (x : List ℚ) : Option (List ℚ) := do
  let (input_pts, input_views) ← splitTwo x net.input_ch net.input_ch_views
  let h ← net.trunkChk input_pts
  if net.use_viewdirs then
    let aL ← net.alpha_linear
    let fL ← net.feature_linear
    let alpha ← aL.applyChk h
    let feature ← fL.applyChk h
    let h1 ← viewsForwardChk net.views_linears (feature ++ input_views)
    let rL ← net.rgb_linear
    let rgb ← rL.applyChk h1
    pure (rgb ++ alpha)
  else
    let oL ← net.output_linear
    oL.applyChk h

/-- The shape-checked `forward` on a batch, row-wise. -/
def NeRF.forwardBatchChk (net : NeRF) : List (List ℚ) → Option (List (List ℚ))
  | [] => some []
  | x :: xs => do
      let y ← net.forwardChk x
      let ys ← net.forwardBatchChk xs
      pure (y :: ys)

/-- The view-dependent head exactly as the spec words it (spec §4.1,
"View-dependent"): one linear head produces density directly from trunk
features (no ReLU); a second linear layer produces an intermediate feature
vector; the feature is concatenated with the encoded view direction and
passed through a half-width layer with ReLU, terminating in a 3-channel
linear head producing RGB; the output is the concatenation (RGB, density). -/
def specViewBranch (aL fL vL rL : Linear) (trunk views : List ℚ) : List ℚ :=
  let density := aL.apply trunk
  let feature := fL.apply trunk
  let hidden := reluV (vL.apply (feature ++ views))
  let rgb := rL.apply hidden
  rgb ++ density

/-- All parameter-object identities owned by a `NeRF` instance. -/
def NeRF.pids (n : NeRF) : List ℕ :=
  (n.pts_linears ++ n.views_linears ++ n.feature_linear.toList ++ n.alpha_linear.toList
    ++ n.rgb_linear.toList ++ n.output_linear.toList).map Linear.pid

/-- A value stored in the stringly-typed `render_kwargs` dictionaries:
booleans, integer counts, floats (here rationals), networks (possibly
`None`), or function objects identified by an id. -/
inductive KVal where
  | b (v : Bool)
  | n (v : ℕ)
  | q (v : ℚ)
  | net (v : Option NeRF)
  | fn (id : ℕ)
deriving DecidableEq

/-- Python dictionary assignment `d[k] = v`: replaces the value at an
existing key in place (keeping insertion order), appends otherwise. -/
def setKey (d : List (String × KVal)) (k : String) (v : KVal) :
    List (String × KVal) :=
  if (d.lookup k).isSome then d.map (fun p => if p.1 = k then (k, v) else p)
  else d ++ [(k, v)]

/-- The configuration arguments consumed by `LitJaxNeRF.create_model`. -/
structure Args where
  multires : ℕ
  multires_views : ℕ
  i_embed : ℕ
  use_viewdirs : Bool
  num_fine_samples : ℕ
  num_coarse_samples : ℕ
  netdepth : ℕ
  netwidth : ℕ
  netdepth_fine : ℕ
  netwidth_fine : ℕ
  perturb : Bool
  white_bkgd : Bool
  raw_noise_std : ℚ
  dataset_type : String
  no_ndc : Bool
  lindisp : Bool

/-- The state `LitJaxNeRF.create_model` leaves behind: `self.model`,
`self.model_fine`, and the two `render_kwargs` dictionaries; `next` is the
parameter-id counter after construction. -/
structure CreateModelResult where
  model : NeRF
  model_fine : Option NeRF
  render_kwargs_train : List (String × KVal)
  render_kwargs_test : List (String × KVal)
  next : ℕ

/-- `LitJaxNeRF.create_model` (lines 103-165).  `embedOutCh` models the
external `embedder.get_embedder`'s returned channel count; `near`/`far` come
from the dataset info bundle; `start`, `wI`, `bI` model fresh parameter
allocation.  The test kwargs are the dict comprehension copy of the train
kwargs followed by the two assignments of lines 160-161. -/
def create_model (args : Args) (near far : ℚ) (embedOutCh : ℕ → ℕ → ℕ)
    (start : ℕ) (wI : ℕ → ℕ → ℕ → ℚ) (bI : ℕ → ℕ → ℚ) : CreateModelResult :=
  let input_ch := embedOutCh args.multires args.i_embed
  let input_ch_views :=
    if args.use_viewdirs then embedOutCh args.multires_views args.i_embed else 0
  let output_ch := if 0 < args.num_fine_samples then 5 else 4
  let skips : List ℕ := [4]
  let mc := NeRF.init args.netdepth args.netwidth input_ch input_ch_views
    output_ch skips args.use_viewdirs start wI bI
  let mf :=
    if 0 < args.num_fine_samples then
      let p := NeRF.init args.netdepth_fine args.netwidth_fine input_ch
        input_ch_views output_ch skips args.use_viewdirs mc.2 wI bI
      (some p.1, p.2)
    else ((none : Option NeRF), mc.2)
  let base : List (String × KVal) := [
    ("network_query_fn", .fn 0), ("perturb", .b args.perturb),
    ("num_fine_samples", .n args.num_fine_samples), ("network_fine", .net mf.1),
    ("num_coarse_samples", .n args.num_coarse_samples),
    ("network_fn", .net (some mc.1)),
    ("use_viewdirs", .b args.use_viewdirs), ("white_bkgd", .b args.white_bkgd),
    ("raw_noise_std", .q args.raw_noise_std), ("near", .q near), ("far", .q far)]
  let train :=
    if args.dataset_type ≠ "llff" ∨ args.no_ndc then
      setKey (setKey base "ndc" (.b false)) "lindisp" (.b args.lindisp)
    else base
  let test := setKey (setKey train "perturb" (.b false)) "raw_noise_std" (.q 0)
  { model := mc.1, model_fine := mf.1, render_kwargs_train := train,
    render_kwargs_test := test, next := mf.2 }

/-- Modelled from the spec: `utils.img2mse` lives in
`model/jaxnerf_torch/utils.py`, which is not among the provided sources; the
spec describes the training loss as the mean-squared error against
ground-truth pixels. -/
def img2mse (a b : List ℚ) : ℚ :=
  (List.zipWith (fun x y => (x - y) ^ 2) a b).sum / a.length

/-- `LitJaxNeRF.training_step` (lines 190-207), taking the render results as
inputs (`utils.render` is external).  `mse2psnr` is the external
`utils.mse2psnr`, whose value is only logged.  The local `psnr0` is bound
only inside the `"rgb0" in extras` branch; the unconditional
`self.log("train/psnr0", psnr0, ...)` on line 205 reads an unbound local
when the branch was not taken, which is Python's `UnboundLocalError`,
embedded as `Except.error`. -/
def training_step (mse2psnr : ℚ → ℚ) (rgb target : List ℚ)
    (extras : List (String × List ℚ)) : Except String ℚ :=
  let img_loss := img2mse rgb target
  let loss1 := img_loss
  let loss := loss1
  let _psnr := mse2psnr img_loss
  let st :=
    match extras.lookup "rgb0" with
    | some rgb0 =>
        let loss0 := img2mse rgb0 target
        let psnr0 := mse2psnr loss0
        (loss + loss0, some psnr0)
    | none => (loss, (none : Option ℚ))
  match st.2 with
  | some _ => Except.ok st.1
  | none =>
      Except.error "UnboundLocalError: local variable psnr0 referenced before assignment"

/-- One element of the list passed to `gather_results` after
`self.all_gather`: each field carries a device dimension (outer list), then
the per-step batch of rows.  `rgb`/`target` rows are 3-vectors, `depth` rows
are scalars. -/
structure StepOut where
  rgb : List (List (List ℚ))
  target : List (List (List ℚ))
  depth : List (List ℚ)

/-- `LitJaxNeRF.gather_results` (lines 247-254): concatenate over the device
dimension inside each step, concatenate over steps, then slice off the last
`dummy_num` rows (`xs[:-dummy_num]`) unless `dummy_num = 0`. -/
def gather_results (outputs : List StepOut) (dummy_num : ℕ) :
    List (List ℚ) × List (List ℚ) × List ℚ :=
  let rgbs := (outputs.map (fun o => o.rgb.flatten)).flatten
  let target := (outputs.map (fun o => o.target.flatten)).flatten
  let depths := (outputs.map (fun o => o.depth.flatten)).flatten
  if dummy_num ≠ 0 then
    (rgbs.take (rgbs.length - dummy_num), target.take (target.length - dummy_num),
     depths.take (depths.length - dummy_num))
  else (rgbs, target, depths)

/-- The per-image mean-squared error of `validation_epoch_end` (line 272):
`torch.mean((target - rgbs) ** 2, dim=1)` on one row of flattened pixels. -/
def rowMse (target rgbs : List ℚ) : ℚ :=
  (List.zipWith (fun t r => (t - r) ^ 2) target rgbs).sum / target.length

/-- IEEE float `log` as used by `torch.log`: `log 0 = -∞`, finite on positive
inputs.  (Negative inputs give NaN in floats; they cannot arise here since
the argument is a mean of squares.) -/
noncomputable def torchLog (x : ℝ) : EReal :=
  if x = 0 then ⊥ else ((Real.log x : ℝ) : EReal)

/-- The per-image PSNR of `validation_epoch_end` (line 273):
`-10.0 * torch.log(mse) / np.log(10)`, with float semantics in `EReal`. -/
noncomputable def valPsnr (mse : ℝ) : EReal :=
  ((-10 : ℝ) : EReal) * torchLog mse / ((Real.log 10 : ℝ) : EReal)

/-! ### Concrete fixtures used by witnesses -/

/-- Zero weight initializer. -/
def wZero : ℕ → ℕ → ℕ → ℚ := fun _ _ _ => 0

/-- Zero bias initializer. -/
def bZero : ℕ → ℕ → ℚ := fun _ _ => 0

/-- A concrete config with a fine network (`num_fine_samples = 1`). -/
def argsFine : Args :=
  { multires := 1, multires_views := 1, i_embed := 0, use_viewdirs := true,
    num_fine_samples := 1, num_coarse_samples := 1, netdepth := 2, netwidth := 2,
    netdepth_fine := 2, netwidth_fine := 2, perturb := true, white_bkgd := false,
    raw_noise_std := 1, dataset_type := "blender", no_ndc := false, lindisp := false }

/-- A concrete config without a fine network (`num_fine_samples = 0`). -/
def argsNoFine : Args :=
  { argsFine with num_fine_samples := 0 }

/-! ### Helper lemmas -/

lemma sum_zipWith_sq_self (l : List ℚ) :
    (List.zipWith (fun a b => (a - b) ^ 2) l l).sum = 0 := by
  induction l with
  | nil => rfl
  | cons a t ih => simp [ih]

lemma rowMse_self (t : List ℚ) : rowMse t t = 0 := by
  simp [rowMse, sum_zipWith_sq_self]

lemma lookup_cons_self (k : String) (a₂ : KVal) (t : List (String × KVal)) :
    List.lookup k ((k, a₂) :: t) = some a₂ := by
  simp [List.lookup]

lemma lookup_cons_of_ne (k a₁ : String) (a₂ : KVal) (t : List (String × KVal))
    (h : k ≠ a₁) : List.lookup k ((a₁, a₂) :: t) = List.lookup k t := by
  have hb : (k == a₁) = false := beq_eq_false_iff_ne.mpr h
  simp [List.lookup, hb]

lemma lookup_map_replace (d : List (String × KVal)) (k₀ : String) (v : KVal)
    (k : String) (h : k ≠ k₀) :
    (d.map (fun p => if p.1 = k₀ then (k₀, v) else p)).lookup k = d.lookup k := by
  induction d with
  | nil => rfl
  | cons a t ih =>
    obtain ⟨a₁, a₂⟩ := a
    simp only [List.map_cons]
    by_cases ha : a₁ = k₀
    · subst ha
      rw [if_pos rfl, lookup_cons_of_ne _ _ _ _ h, lookup_cons_of_ne _ _ _ _ h, ih]
    · rw [if_neg ha]
      by_cases hk : k = a₁
      · subst hk
        rw [lookup_cons_self, lookup_cons_self]
      · rw [lookup_cons_of_ne _ _ _ _ hk, lookup_cons_of_ne _ _ _ _ hk, ih]

lemma lookup_map_replace_self (d : List (String × KVal)) (k₀ : String) (v : KVal)
    (h : (d.lookup k₀).isSome) :
    (d.map (fun p => if p.1 = k₀ then (k₀, v) else p)).lookup k₀ = some v := by
  induction d with
  | nil => simp [List.lookup] at h
  | cons a t ih =>
    obtain ⟨a₁, a₂⟩ := a
    simp only [List.map_cons]
    by_cases ha : a₁ = k₀
    · subst ha
      rw [if_pos rfl, lookup_cons_self]
    · have hne : k₀ ≠ a₁ := fun he => ha he.symm
      have h' : (t.lookup k₀).isSome := by
        rwa [lookup_cons_of_ne _ _ _ _ hne] at h
      rw [if_neg ha, lookup_cons_of_ne _ _ _ _ hne]
      exact ih h'

lemma lookup_append_absent (d : List (String × KVal)) (k₀ : String) (v : KVal)
    (h : d.lookup k₀ = none) : (d ++ [(k₀, v)]).lookup k₀ = some v := by
  induction d with
  | nil => exact lookup_cons_self k₀ v []
  | cons a t ih =>
    obtain ⟨a₁, a₂⟩ := a
    by_cases hk : k₀ = a₁
    · subst hk
      rw [lookup_cons_self] at h
      cases h
    · rw [lookup_cons_of_ne _ _ _ _ hk] at h
      rw [List.cons_append, lookup_cons_of_ne _ _ _ _ hk]
      exact ih h

lemma lookup_append_single_ne (d : List (String × KVal)) (k₀ : String) (v : KVal)
    (k : String) (h : k ≠ k₀) : (d ++ [(k₀, v)]).lookup k = d.lookup k := by
  induction d with
  | nil => exact lookup_cons_of_ne _ _ _ _ h
  | cons a t ih =>
    obtain ⟨a₁, a₂⟩ := a
    by_cases hk : k = a₁
    · subst hk
      rw [List.cons_append, lookup_cons_self, lookup_cons_self]
    · rw [List.cons_append, lookup_cons_of_ne _ _ _ _ hk,
        lookup_cons_of_ne _ _ _ _ hk, ih]

lemma lookup_setKey_ne (d : List (String × KVal)) (k₀ : String) (v : KVal)
    (k : String) (h : k ≠ k₀) : (setKey d k₀ v).lookup k = d.lookup k := by
  unfold setKey
  by_cases hp : (d.lookup k₀).isSome
  · simp only [hp, if_true]
    exact lookup_map_replace d k₀ v k h
  · simp only [hp, if_false]
    exact lookup_append_single_ne d k₀ v k h

lemma lookup_setKey_self (d : List (String × KVal)) (k₀ : String) (v : KVal) :
    (setKey d k₀ v).lookup k₀ = some v := by
  unfold setKey
  by_cases hp : (d.lookup k₀).isSome
  · simp only [hp, if_true]
    exact lookup_map_replace_self d k₀ v hp
  · simp only [hp, if_false]
    exact lookup_append_absent d k₀ v (Option.not_isSome_iff_eq_none.mp hp)

lemma length_freshLinear_apply (wI : ℕ → ℕ → ℕ → ℚ) (bI : ℕ → ℕ → ℚ)
    (pid inF outF : ℕ) (x : List ℚ) :
    ((freshLinear wI bI pid inF outF).apply x).length = outF := by
  simp [Linear.apply, freshLinear]

lemma viewsForward_singleton (l : Linear) (z : List ℚ) :
    viewsForward [l] z = reluV (l.apply z) := by
  simp [viewsForward]

lemma length_reluV (v : List ℚ) : (reluV v).length = v.length := by
  simp [reluV]

lemma freshLinear_rows (wI : ℕ → ℕ → ℕ → ℚ) (bI : ℕ → ℕ → ℚ) (pid inF outF : ℕ) :
    ∀ row ∈ (freshLinear wI bI pid inF outF).weight, row.length = inF := by
  intro row hr
  simp only [freshLinear, List.mem_map] at hr
  obtain ⟨r, -, rfl⟩ := hr
  simp

lemma applyChk_fresh (wI : ℕ → ℕ → ℕ → ℚ) (bI : ℕ → ℕ → ℚ) (pid inF outF : ℕ)
    (x : List ℚ) (h : x.length = inF) :
    (freshLinear wI bI pid inF outF).applyChk x =
      some ((freshLinear wI bI pid inF outF).apply x) := by
  rw [Linear.applyChk, if_pos]
  intro row hr
  rw [freshLinear_rows wI bI pid inF outF row hr, h]

lemma applyChk_some (l : Linear) (x y : List ℚ) (h : l.applyChk x = some y) :
    l.apply x = y := by
  by_cases hc : ∀ row ∈ l.weight, row.length = x.length
  · rw [Linear.applyChk, if_pos hc] at h
    exact Option.some.inj h
  · rw [Linear.applyChk, if_neg hc] at h
    cases h

lemma enumFrom_map_range' (f : ℕ → Linear) :
    ∀ (m k : ℕ), List.enumFrom (k + 1) ((List.range' k m).map f)
      = (List.range' k m).map (fun i => (i + 1, f i)) := by
  intro m
  induction m with
  | zero => intro k; rfl
  | succ m ih =>
      intro k
      rw [List.range'_succ]
      simp only [List.map_cons, List.enumFrom]
      rw [ih (k + 1)]

lemma init_pts_enum (D W ic icv oc : ℕ) (skips : List ℕ) (uvd : Bool) (start : ℕ)
    (wI : ℕ → ℕ → ℕ → ℚ) (bI : ℕ → ℕ → ℚ) :
    ((NeRF.init D W ic icv oc skips uvd start wI bI).1.pts_linears).enum
      = (0, freshLinear wI bI start ic W) ::
        (List.range' 0 (D - 1)).map (fun i =>
          (i + 1, if i ∈ skips then freshLinear wI bI (start + 1 + i) (W + ic) W
                  else freshLinear wI bI (start + 1 + i) W W)) := by
  have hpts : (NeRF.init D W ic icv oc skips uvd start wI bI).1.pts_linears
      = freshLinear wI bI start ic W ::
        (List.range (D - 1)).map (fun i =>
          if i ∈ skips then freshLinear wI bI (start + 1 + i) (W + ic) W
          else freshLinear wI bI (start + 1 + i) W W) := by
    cases uvd <;> rfl
  rw [hpts, List.range_eq_range']
  show (0, freshLinear wI bI start ic W) ::
      List.enumFrom (0 + 1) ((List.range' 0 (D - 1)).map _) = _
  rw [enumFrom_map_range' _ (D - 1) 0]

lemma ptsForwardChk_range (W ic start : ℕ) (skips : List ℕ)
    (wI : ℕ → ℕ → ℕ → ℚ) (bI : ℕ → ℕ → ℚ) (input_pts : List ℚ)
    (hpts : input_pts.length = ic) :
    ∀ (m k : ℕ) (h : List ℚ), h.length = (if k ∈ skips then ic + W else W) →
      ∃ h', ptsForwardChk input_pts skips
          ((List.range' k m).map (fun i =>
            (i + 1, if i ∈ skips then freshLinear wI bI (start + 1 + i) (W + ic) W
                    else freshLinear wI bI (start + 1 + i) W W))) h = some h' ∧
        h'.length = (if (k + m) ∈ skips then ic + W else W) := by
  intro m
  induction m with
  | zero =>
      intro k h hh
      exact ⟨h, rfl, by simpa using hh⟩
  | succ m ih =>
      intro k h hh
      rw [List.range'_succ]
      simp only [List.map_cons]
      by_cases hk : k ∈ skips
      · rw [if_pos hk] at hh
        have happ := applyChk_fresh wI bI (start + 1 + k) (W + ic) W h
          (by rw [hh, Nat.add_comm])
        obtain ⟨h', hrun, hlen⟩ := ih (k + 1)
          (if (k + 1) ∈ skips then
            input_pts ++ reluV ((freshLinear wI bI (start + 1 + k) (W + ic) W).apply h)
          else reluV ((freshLinear wI bI (start + 1 + k) (W + ic) W).apply h))
          (by by_cases h1 : (k + 1) ∈ skips <;>
                simp [h1, length_reluV, length_freshLinear_apply, hpts])
        refine ⟨h', ?_, ?_⟩
        · simp only [ptsForwardChk, if_pos hk, happ]
          exact hrun
        · rw [hlen]
          have harith : k + 1 + m = k + (m + 1) := by omega
          rw [harith]
      · rw [if_neg hk] at hh
        have happ := applyChk_fresh wI bI (start + 1 + k) W W h (by rw [hh])
        obtain ⟨h', hrun, hlen⟩ := ih (k + 1)
          (if (k + 1) ∈ skips then
            input_pts ++ reluV ((freshLinear wI bI (start + 1 + k) W W).apply h)
          else reluV ((freshLinear wI bI (start + 1 + k) W W).apply h))
          (by by_cases h1 : (k + 1) ∈ skips <;>
                simp [h1, length_reluV, length_freshLinear_apply, hpts])
        refine ⟨h', ?_, ?_⟩
        · simp only [ptsForwardChk, if_neg hk, happ]
          exact hrun
        · rw [hlen]
          have harith : k + 1 + m = k + (m + 1) := by omega
          rw [harith]

lemma trunkChk_init (D W ic icv oc : ℕ) (skips : List ℕ) (uvd : Bool) (start : ℕ)
    (wI : ℕ → ℕ → ℕ → ℚ) (bI : ℕ → ℕ → ℚ) (input_pts : List ℚ)
    (hpts : input_pts.length = ic) :
    ∃ h', (NeRF.init D W ic icv oc skips uvd start wI bI).1.trunkChk input_pts
        = some h' ∧
      h'.length = (if (D - 1) ∈ skips then ic + W else W) := by
  have hsk : (NeRF.init D W ic icv oc skips uvd start wI bI).1.skips = skips := by
    cases uvd <;> rfl
  have happ := applyChk_fresh wI bI start ic W input_pts (by rw [hpts])
  obtain ⟨h', hrun, hlen⟩ := ptsForwardChk_range W ic start skips wI bI input_pts hpts
    (D - 1) 0
    (if 0 ∈ skips then
      input_pts ++ reluV ((freshLinear wI bI start ic W).apply input_pts)
    else reluV ((freshLinear wI bI start ic W).apply input_pts))
    (by by_cases h0 : 0 ∈ skips <;>
          simp [h0, length_reluV, length_freshLinear_apply, hpts])
  refine ⟨h', ?_, by simpa using hlen⟩
  simp only [NeRF.trunkChk, hsk, init_pts_enum, ptsForwardChk, happ]
  exact hrun

lemma forward_init_false_eq (D W ic icv oc : ℕ) (skips : List ℕ) (start : ℕ)
    (wI : ℕ → ℕ → ℕ → ℚ) (bI : ℕ → ℕ → ℚ) (x : List ℚ) (h : x.length = ic + icv) :
    (NeRF.init D W ic icv oc skips false start wI bI).1.forward x =
      some ((freshLinear wI bI (start + D + 1) W oc).apply
        ((NeRF.init D W ic icv oc skips false start wI bI).1.trunk (x.take ic))) := by
  simp [NeRF.forward, NeRF.init, splitTwo, h]

lemma forward_init_true_eq (D W ic icv oc : ℕ) (skips : List ℕ) (start : ℕ)
    (wI : ℕ → ℕ → ℕ → ℚ) (bI : ℕ → ℕ → ℚ) (x : List ℚ) (h : x.length = ic + icv) :
    (NeRF.init D W ic icv oc skips true start wI bI).1.forward x =
      some ((freshLinear wI bI (start + D + 3) (W / 2) 3).apply
          (viewsForward [freshLinear wI bI (start + D) (icv + W) (W / 2)]
            ((freshLinear wI bI (start + D + 1) W W).apply
                ((NeRF.init D W ic icv oc skips true start wI bI).1.trunk (x.take ic))
              ++ x.drop ic))
        ++ (freshLinear wI bI (start + D + 2) W 1).apply
            ((NeRF.init D W ic icv oc skips true start wI bI).1.trunk (x.take ic))) := by
  simp [NeRF.forward, NeRF.init, splitTwo, h]

lemma init_input_ch (D W ic icv oc : ℕ) (skips : List ℕ) (uvd : Bool) (start : ℕ)
    (wI : ℕ → ℕ → ℕ → ℚ) (bI : ℕ → ℕ → ℚ) :
    ((NeRF.init D W ic icv oc skips uvd start wI bI).1).input_ch = ic := by
  cases uvd <;> rfl

lemma init_input_ch_views (D W ic icv oc : ℕ) (skips : List ℕ) (uvd : Bool) (start : ℕ)
    (wI : ℕ → ℕ → ℕ → ℚ) (bI : ℕ → ℕ → ℚ) :
    ((NeRF.init D W ic icv oc skips uvd start wI bI).1).input_ch_views = icv := by
  cases uvd <;> rfl

lemma init_skips (D W ic icv oc : ℕ) (skips : List ℕ) (uvd : Bool) (start : ℕ)
    (wI : ℕ → ℕ → ℕ → ℚ) (bI : ℕ → ℕ → ℚ) :
    ((NeRF.init D W ic icv oc skips uvd start wI bI).1).skips = skips := by
  cases uvd <;> rfl

lemma init_use_viewdirs (D W ic icv oc : ℕ) (skips : List ℕ) (uvd : Bool) (start : ℕ)
    (wI : ℕ → ℕ → ℕ → ℚ) (bI : ℕ → ℕ → ℚ) :
    ((NeRF.init D W ic icv oc skips uvd start wI bI).1).use_viewdirs = uvd := by
  cases uvd <;> rfl

lemma init_D (D W ic icv oc : ℕ) (skips : List ℕ) (uvd : Bool) (start : ℕ)
    (wI : ℕ → ℕ → ℕ → ℚ) (bI : ℕ → ℕ → ℚ) :
    ((NeRF.init D W ic icv oc skips uvd start wI bI).1).D = D := by
  cases uvd <;> rfl

lemma init_W (D W ic icv oc : ℕ) (skips : List ℕ) (uvd : Bool) (start : ℕ)
    (wI : ℕ → ℕ → ℕ → ℚ) (bI : ℕ → ℕ → ℚ) :
    ((NeRF.init D W ic icv oc skips uvd start wI bI).1).W = W := by
  cases uvd <;> rfl

lemma init_output_bias_length (D W ic icv oc : ℕ) (skips : List ℕ) (uvd : Bool)
    (start : ℕ) (wI : ℕ → ℕ → ℕ → ℚ) (bI : ℕ → ℕ → ℚ) :
    ((NeRF.init D W ic icv oc skips uvd start wI bI).1).output_linear.map
        (fun l => l.bias.length) = (if uvd then none else some oc) := by
  cases uvd <;> simp [NeRF.init, freshLinear]

lemma init_le_snd (D W ic icv oc : ℕ) (skips : List ℕ) (uvd : Bool) (start : ℕ)
    (wI : ℕ → ℕ → ℕ → ℚ) (bI : ℕ → ℕ → ℚ) :
    start ≤ (NeRF.init D W ic icv oc skips uvd start wI bI).2 := by
  cases uvd <;> simp [NeRF.init] <;> omega

lemma ptsForwardChk_agree (ip : List ℚ) (sk : List ℕ) :
    ∀ (ps : List (ℕ × Linear)) (h h' : List ℚ),
      ptsForwardChk ip sk ps h = some h' → ptsForward ip sk ps h = h' := by
  intro ps
  induction ps with
  | nil =>
      intro h h' hh
      simp only [ptsForwardChk] at hh
      exact Option.some.inj hh
  | cons p rest ih =>
      obtain ⟨i, l⟩ := p
      intro h h' hh
      simp only [ptsForwardChk] at hh
      cases happ : l.applyChk h with
      | none => rw [happ] at hh; simp at hh
      | some h1 =>
          rw [happ, Option.some_bind] at hh
          simp only [ptsForward]
          rw [applyChk_some l h h1 happ]
          exact ih _ h' hh

lemma viewsForwardChk_agree :
    ∀ (ls : List Linear) (h h' : List ℚ),
      viewsForwardChk ls h = some h' → viewsForward ls h = h' := by
  intro ls
  induction ls with
  | nil =>
      intro h h' hh
      simp only [viewsForwardChk] at hh
      exact Option.some.inj hh
  | cons l rest ih =>
      intro h h' hh
      simp only [viewsForwardChk] at hh
      cases happ : l.applyChk h with
      | none => rw [happ] at hh; simp at hh
      | some h1 =>
          rw [happ, Option.some_bind] at hh
          simp only [viewsForward]
          rw [applyChk_some l h h1 happ]
          exact ih _ h' hh

/-- The shape-checked forward refines the arithmetic one: whenever the real
code does not raise, both compute the same output.  (The converse fails:
`NeRF.forward` also yields values at shape-inconsistent configurations where
`NeRF.forwardChk` raises, which is why shape theorems use the latter.) -/
lemma forwardChk_agree (net : NeRF) (x y : List ℚ)
    (h : net.forwardChk x = some y) : net.forward x = some y := by
  simp only [NeRF.forwardChk] at h
  simp only [NeRF.forward]
  cases hsp : splitTwo x net.input_ch net.input_ch_views with
  | none => rw [hsp] at h; simp at h
  | some p =>
      obtain ⟨ip, iv⟩ := p
      simp only [hsp, Option.bind_eq_bind, Option.some_bind] at h ⊢
      cases htr : net.trunkChk ip with
      | none => rw [htr] at h; simp at h
      | some h0 =>
          rw [htr, Option.some_bind] at h
          simp only [NeRF.trunkChk] at htr
          have htrunk : net.trunk ip = h0 := by
            simp only [NeRF.trunk]
            exact ptsForwardChk_agree ip net.skips _ ip h0 htr
          rw [htrunk]
          cases huv : net.use_viewdirs with
          | false =>
              simp only [huv, Bool.false_eq_true, if_false] at h ⊢
              cases hol : net.output_linear with
              | none => rw [hol] at h; simp at h
              | some oL =>
                  rw [hol] at h
                  simp only [Option.some_bind] at h ⊢
                  rw [applyChk_some oL h0 y h]
                  rfl
          | true =>
              simp only [huv, if_true] at h ⊢
              cases hal : net.alpha_linear with
              | none => rw [hal] at h; simp at h
              | some aL =>
                  rw [hal] at h
                  simp only [Option.some_bind] at h ⊢
                  cases hfl : net.feature_linear with
                  | none => rw [hfl] at h; simp at h
                  | some fL =>
                      rw [hfl] at h
                      simp only [Option.some_bind] at h ⊢
                      cases haC : aL.applyChk h0 with
                      | none => rw [haC] at h; simp at h
                      | some alpha =>
                          rw [haC] at h
                          simp only [Option.some_bind] at h
                          rw [applyChk_some aL h0 alpha haC]
                          cases hfC : fL.applyChk h0 with
                          | none => rw [hfC] at h; simp at h
                          | some feature =>
                              rw [hfC] at h
                              simp only [Option.some_bind] at h
                              rw [applyChk_some fL h0 feature hfC]
                              cases hvC : viewsForwardChk net.views_linears
                                  (feature ++ iv) with
                              | none => rw [hvC] at h; simp at h
                              | some h1 =>
                                  rw [hvC] at h
                                  simp only [Option.some_bind] at h
                                  rw [viewsForwardChk_agree net.views_linears
                                    (feature ++ iv) h1 hvC]
                                  cases hrl : net.rgb_linear with
                                  | none => rw [hrl] at h; simp at h
                                  | some rL =>
                                      rw [hrl] at h
                                      simp only [Option.some_bind] at h ⊢
                                      cases hrC : rL.applyChk h1 with
                                      | none => rw [hrC] at h; simp at h
                                      | some rgb =>
                                          rw [hrC] at h
                                          simp only [Option.some_bind] at h
                                          rw [applyChk_some rL h1 rgb hrC]
                                          exact h

lemma init_output_linear_false (D W ic icv oc : ℕ) (skips : List ℕ) (start : ℕ)
    (wI : ℕ → ℕ → ℕ → ℚ) (bI : ℕ → ℕ → ℚ) :
    ((NeRF.init D W ic icv oc skips false start wI bI).1).output_linear
      = some (freshLinear wI bI (start + D + 1) W oc) := rfl

lemma init_alpha_linear_true (D W ic icv oc : ℕ) (skips : List ℕ) (start : ℕ)
    (wI : ℕ → ℕ → ℕ → ℚ) (bI : ℕ → ℕ → ℚ) :
    ((NeRF.init D W ic icv oc skips true start wI bI).1).alpha_linear
      = some (freshLinear wI bI (start + D + 2) W 1) := rfl

lemma init_feature_linear_true (D W ic icv oc : ℕ) (skips : List ℕ) (start : ℕ)
    (wI : ℕ → ℕ → ℕ → ℚ) (bI : ℕ → ℕ → ℚ) :
    ((NeRF.init D W ic icv oc skips true start wI bI).1).feature_linear
      = some (freshLinear wI bI (start + D + 1) W W) := rfl

lemma init_rgb_linear_true (D W ic icv oc : ℕ) (skips : List ℕ) (start : ℕ)
    (wI : ℕ → ℕ → ℕ → ℚ) (bI : ℕ → ℕ → ℚ) :
    ((NeRF.init D W ic icv oc skips true start wI bI).1).rgb_linear
      = some (freshLinear wI bI (start + D + 3) (W / 2) 3) := rfl

lemma init_views_linears (D W ic icv oc : ℕ) (skips : List ℕ) (uvd : Bool) (start : ℕ)
    (wI : ℕ → ℕ → ℕ → ℚ) (bI : ℕ → ℕ → ℚ) :
    ((NeRF.init D W ic icv oc skips uvd start wI bI).1).views_linears
      = [freshLinear wI bI (start + D) (icv + W) (W / 2)] := by
  cases uvd <;> rfl

lemma forwardChk_init_shape (D W ic icv oc : ℕ) (skips : List ℕ) (uvd : Bool)
    (start : ℕ) (wI : ℕ → ℕ → ℕ → ℚ) (bI : ℕ → ℕ → ℚ) (x : List ℚ)
    (hx : x.length = ic + icv) (hsk : (D - 1) ∉ skips) :
    ∃ y, (NeRF.init D W ic icv oc skips uvd start wI bI).1.forwardChk x = some y ∧
      y.length = (if uvd then 4 else oc) := by
  have htake : (x.take ic).length = ic := by
    rw [List.length_take, hx]; omega
  have hdrop : (x.drop ic).length = icv := by
    rw [List.length_drop, hx]; omega
  have hsp : splitTwo x ic icv = some (x.take ic, x.drop ic) := by
    simp [splitTwo, hx]
  obtain ⟨h', hrun, hlen⟩ :=
    trunkChk_init D W ic icv oc skips uvd start wI bI (x.take ic) htake
  rw [if_neg hsk] at hlen
  cases uvd with
  | false =>
      refine ⟨(freshLinear wI bI (start + D + 1) W oc).apply h', ?_,
        by simp [length_freshLinear_apply]⟩
      have ho := applyChk_fresh wI bI (start + D + 1) W oc h' hlen
      simp [NeRF.forwardChk, init_input_ch, init_input_ch_views, init_use_viewdirs,
        init_output_linear_false, hsp, hrun, ho]
  | true =>
      have ha := applyChk_fresh wI bI (start + D + 2) W 1 h' hlen
      have hf := applyChk_fresh wI bI (start + D + 1) W W h' hlen
      have hvin : ((freshLinear wI bI (start + D + 1) W W).apply h'
          ++ x.drop ic).length = icv + W := by
        rw [List.length_append, length_freshLinear_apply, hdrop, Nat.add_comm]
      have hv := applyChk_fresh wI bI (start + D) (icv + W) (W / 2) _ hvin
      have hrgbin : (reluV ((freshLinear wI bI (start + D) (icv + W) (W / 2)).apply
          ((freshLinear wI bI (start + D + 1) W W).apply h'
            ++ x.drop ic))).length = W / 2 := by
        rw [length_reluV, length_freshLinear_apply]
      have hrgb := applyChk_fresh wI bI (start + D + 3) (W / 2) 3 _ hrgbin
      refine ⟨(freshLinear wI bI (start + D + 3) (W / 2) 3).apply
          (reluV ((freshLinear wI bI (start + D) (icv + W) (W / 2)).apply
            ((freshLinear wI bI (start + D + 1) W W).apply h' ++ x.drop ic)))
        ++ (freshLinear wI bI (start + D + 2) W 1).apply h', ?_,
        by simp [List.length_append, length_freshLinear_apply]⟩
      simp [NeRF.forwardChk, init_input_ch, init_input_ch_views, init_use_viewdirs,
        init_alpha_linear_true, init_feature_linear_true, init_rgb_linear_true,
        init_views_linears, viewsForwardChk, hsp, hrun, ha, hf, hv, hrgb]

lemma pids_init_bound (D W ic icv oc : ℕ) (skips : List ℕ) (uvd : Bool) (start : ℕ)
    (wI : ℕ → ℕ → ℕ → ℚ) (bI : ℕ → ℕ → ℚ) (p : ℕ)
    (hp : p ∈ ((NeRF.init D W ic icv oc skips uvd start wI bI).1).pids) :
    start ≤ p ∧ p < (NeRF.init D W ic icv oc skips uvd start wI bI).2 := by
  cases uvd
  · simp [NeRF.init, NeRF.pids, freshLinear, apply_ite Linear.pid] at hp ⊢
    rcases hp with rfl | ⟨i, hi, rfl⟩ | rfl | rfl <;> omega
  · simp [NeRF.init, NeRF.pids, freshLinear, apply_ite Linear.pid] at hp ⊢
    rcases hp with rfl | ⟨i, hi, rfl⟩ | rfl | rfl | rfl | rfl <;> omega

/-! ### Claim theorems -/

/-- C3: the evaluation render settings built by `create_model`
(`render_kwargs_test`) agree with the training settings
(`render_kwargs_train`) on every key except exactly the two overridden ones:
`perturb` is forced to `False` and `raw_noise_std` is forced to `0`. -/
theorem render_kwargs_test_eq_train_except_two (args : Args) (near far : ℚ)
    (embedOutCh : ℕ → ℕ → ℕ) (start : ℕ) (wI : ℕ → ℕ → ℕ → ℚ) (bI : ℕ → ℕ → ℚ) :
    (∀ k : String, k ≠ "perturb" → k ≠ "raw_noise_std" →
      (create_model args near far embedOutCh start wI bI).render_kwargs_test.lookup k =
        (create_model args near far embedOutCh start wI bI).render_kwargs_train.lookup k) ∧
    (create_model args near far embedOutCh start wI bI).render_kwargs_test.lookup
        "perturb" = some (.b false) ∧
    (create_model args near far embedOutCh start wI bI).render_kwargs_test.lookup
        "raw_noise_std" = some (.q 0) := by
  have htest : (create_model args near far embedOutCh start wI bI).render_kwargs_test =
      setKey (setKey
          ((create_model args near far embedOutCh start wI bI).render_kwargs_train)
          "perturb" (.b false)) "raw_noise_std" (.q 0) := rfl
  refine ⟨fun k h1 h2 => ?_, ?_, ?_⟩
  · rw [htest, lookup_setKey_ne _ _ _ _ h2, lookup_setKey_ne _ _ _ _ h1]
  · rw [htest, lookup_setKey_ne _ _ _ _ (by decide), lookup_setKey_self]
  · rw [htest, lookup_setKey_self]

/-- Witness for C3 at a concrete configuration and the key `"near"`. -/
theorem render_kwargs_test_eq_train_except_two_witness :
    (("near" : String) ≠ "perturb") ∧ (("near" : String) ≠ "raw_noise_std") ∧
    (create_model argsFine 2 6 (fun _ _ => 1) 0 wZero bZero).render_kwargs_test.lookup
        "near" =
      (create_model argsFine 2 6 (fun _ _ => 1) 0 wZero bZero).render_kwargs_train.lookup
        "near" :=
  ⟨by decide, by decide,
    (render_kwargs_test_eq_train_except_two argsFine 2 6 (fun _ _ => 1) 0 wZero bZero).1
      "near" (by decide) (by decide)⟩

/-- C9: `validation_epoch_end` computes per-image PSNR as
`-10 * log(mse) / log(10)` directly from the per-image mean-squared error,
with no clamping or epsilon applied before the logarithm; a zero MSE (as
produced by a perfectly reconstructed image) therefore yields a non-finite
PSNR value (`+∞` in the extended reals, the float `-10 * (-inf) / log 10`). -/
theorem validation_psnr_zero_mse_nonfinite (t : List ℚ) :
    rowMse t t = 0 ∧ valPsnr ((rowMse t t : ℚ) : ℝ) = ⊤ := by
  refine ⟨rowMse_self t, ?_⟩
  rw [rowMse_self t]
  have hlog : torchLog ((0 : ℚ) : ℝ) = ⊥ := by simp [torchLog]
  rw [valPsnr, hlog, EReal.coe_mul_bot_of_neg (by norm_num)]
  exact EReal.top_div_of_pos_ne_top
    (by exact_mod_cast Real.log_pos (by norm_num))
    (EReal.coe_ne_top _)

/-- C2: `gather_results` returns the gathered-and-concatenated `rgb`,
`target` and `depth` tensors with exactly the last `dummy_num` rows removed
from each (a prefix of the gathered concatenation, so the order of the
remaining rows is the gathered order); when `dummy_num = 0` all rows are
kept. -/
theorem gather_results_trims_trailing_dummy (outputs : List StepOut) (dummy_num : ℕ) :
    gather_results outputs dummy_num =
      (((outputs.map (fun o => o.rgb.flatten)).flatten).take
          (((outputs.map (fun o => o.rgb.flatten)).flatten).length - dummy_num),
       ((outputs.map (fun o => o.target.flatten)).flatten).take
          (((outputs.map (fun o => o.target.flatten)).flatten).length - dummy_num),
       ((outputs.map (fun o => o.depth.flatten)).flatten).take
          (((outputs.map (fun o => o.depth.flatten)).flatten).length - dummy_num)) := by
  by_cases h : dummy_num = 0
  · subst h
    simp [gather_results]
  · simp [gather_results, h]

/-- C4: when the render extras contain the coarse pass's RGB under `"rgb0"`,
`training_step` returns the mean-squared error of the fine RGB against the
target plus the mean-squared error of `extras["rgb0"]` against the same
target. -/
theorem training_step_loss_adds_coarse_term (mse2psnr : ℚ → ℚ)
    (rgb target rgb0 : List ℚ) (extras : List (String × List ℚ))
    (h : extras.lookup "rgb0" = some rgb0) :
    training_step mse2psnr rgb target extras =
      Except.ok (img2mse rgb target + img2mse rgb0 target) := by
  simp [training_step, h]

/-- Witness for C4 at a concrete batch. -/
theorem training_step_loss_adds_coarse_term_witness :
    ([("rgb0", [(1 : ℚ)])].lookup "rgb0" = some [(1 : ℚ)]) ∧
    training_step (fun q => q) [(2 : ℚ)] [(0 : ℚ)] [("rgb0", [(1 : ℚ)])] =
      Except.ok (img2mse [(2 : ℚ)] [(0 : ℚ)] + img2mse [(1 : ℚ)] [(0 : ℚ)]) :=
  ⟨by decide, training_step_loss_adds_coarse_term (fun q => q) [2] [0] [1]
      [("rgb0", [1])] (by decide)⟩

/-- C10: when the render extras do not contain `"rgb0"` (no fine pass),
`training_step` fails with an undefined-variable error rather than return a
loss: line 205 logs `psnr0`, which is assigned only inside the branch
guarded by `"rgb0" in extras`. -/
theorem training_step_missing_rgb0_unbound_local (mse2psnr : ℚ → ℚ)
    (rgb target : List ℚ) (extras : List (String × List ℚ))
    (h : extras.lookup "rgb0" = none) :
    training_step mse2psnr rgb target extras =
      Except.error
        "UnboundLocalError: local variable psnr0 referenced before assignment" := by
  simp [training_step, h]

/-- Witness for C10 at a concrete batch with empty extras. -/
theorem training_step_missing_rgb0_unbound_local_witness :
    (([] : List (String × List ℚ)).lookup "rgb0" = none) ∧
    training_step (fun q => q) [(2 : ℚ)] [(0 : ℚ)] [] =
      Except.error
        "UnboundLocalError: local variable psnr0 referenced before assignment" :=
  ⟨by decide, training_step_missing_rgb0_unbound_local (fun q => q) [2] [0] [] (by decide)⟩

/-- C1: on a freshly constructed `NeRF` with `use_viewdirs = True` and an
input with the configured `input_ch + input_ch_views` channels, `forward`
computes exactly the spec's view-dependent pipeline (`specViewBranch`):
density by a single linear head on the trunk with no ReLU, a width-`W`
feature vector by a linear layer, concatenation with the encoded view
direction, one half-width (`W / 2`) linear layer followed by ReLU, a final
3-channel RGB head, and output `(RGB, density)` in that order. -/
theorem nerf_forward_viewdirs_pipeline (D W ic icv oc : ℕ) (skips : List ℕ)
    (start : ℕ) (wI : ℕ → ℕ → ℕ → ℚ) (bI : ℕ → ℕ → ℚ) (x : List ℚ)
    (h : x.length = ic + icv) :
    (NeRF.init D W ic icv oc skips true start wI bI).1.forward x =
      some (specViewBranch
        ((NeRF.init D W ic icv oc skips true start wI bI).1.alpha_linear.getD default)
        ((NeRF.init D W ic icv oc skips true start wI bI).1.feature_linear.getD default)
        ((NeRF.init D W ic icv oc skips true start wI bI).1.views_linears.headI)
        ((NeRF.init D W ic icv oc skips true start wI bI).1.rgb_linear.getD default)
        ((NeRF.init D W ic icv oc skips true start wI bI).1.trunk (x.take ic))
        (x.drop ic)) ∧
    ((NeRF.init D W ic icv oc skips true start wI bI).1.alpha_linear.getD
        default).bias.length = 1 ∧
    (NeRF.init D W ic icv oc skips true start wI bI).1.views_linears.length = 1 ∧
    ((NeRF.init D W ic icv oc skips true start wI
        bI).1.views_linears.headI).bias.length = W / 2 ∧
    (∀ row ∈ ((NeRF.init D W ic icv oc skips true start wI
        bI).1.views_linears.headI).weight, row.length = icv + W) ∧
    ((NeRF.init D W ic icv oc skips true start wI bI).1.rgb_linear.getD
        default).bias.length = 3 := by
  refine ⟨?_, ?_, ?_, ?_, ?_, ?_⟩
  · rw [forward_init_true_eq D W ic icv oc skips start wI bI x h]
    simp [NeRF.init, specViewBranch, viewsForward_singleton]
  · simp [NeRF.init, freshLinear]
  · simp [NeRF.init]
  · simp [NeRF.init, freshLinear]
  · simp [NeRF.init, freshLinear]
  · simp [NeRF.init, freshLinear]

/-- Witness for C1 at a concrete network and input. -/
theorem nerf_forward_viewdirs_pipeline_witness :
    (([(0 : ℚ), 0] : List ℚ).length = 1 + 1) ∧
    (NeRF.init 2 2 1 1 5 [4] true 0 wZero bZero).1.forward [(0 : ℚ), 0] =
      some (specViewBranch
        ((NeRF.init 2 2 1 1 5 [4] true 0 wZero bZero).1.alpha_linear.getD default)
        ((NeRF.init 2 2 1 1 5 [4] true 0 wZero bZero).1.feature_linear.getD default)
        ((NeRF.init 2 2 1 1 5 [4] true 0 wZero bZero).1.views_linears.headI)
        ((NeRF.init 2 2 1 1 5 [4] true 0 wZero bZero).1.rgb_linear.getD default)
        ((NeRF.init 2 2 1 1 5 [4] true 0 wZero bZero).1.trunk ([(0 : ℚ), 0].take 1))
        ([(0 : ℚ), 0].drop 1)) :=
  ⟨by decide,
    (nerf_forward_viewdirs_pipeline 2 2 1 1 5 [4] 0 wZero bZero [0, 0] (by decide)).1⟩

lemma forward_init_shape (D W ic icv oc : ℕ) (skips : List ℕ) (uvd : Bool)
    (start : ℕ) (wI : ℕ → ℕ → ℕ → ℚ) (bI : ℕ → ℕ → ℚ) (x : List ℚ)
    (h : x.length = ic + icv) :
    ∃ y, (NeRF.init D W ic icv oc skips uvd start wI bI).1.forward x = some y ∧
      y.length = (if uvd then 4 else oc) := by
  cases uvd
  · exact ⟨_, forward_init_false_eq D W ic icv oc skips start wI bI x h,
      by simp [length_freshLinear_apply]⟩
  · exact ⟨_, forward_init_true_eq D W ic icv oc skips start wI bI x h,
      by simp [length_freshLinear_apply]⟩

/-- C5 (amended): for every freshly constructed network, every skip
configuration the trunk tolerates (no skip index equal to `D - 1` — a skip
concat after the last trunk layer widens the features to `W + input_ch` and
the `Linear(W, _)` heads then raise a matmul shape error; the hard-coded
`skips = [4]` with `netdepth = 8` satisfies this), and every batch of inputs
with the configured channel count, the shape-checked `forward` succeeds and
the output has shape `[batch, c]` where `c = 4` when `use_viewdirs` is true
and `c = output_ch` otherwise; `c` does not depend on the skip configuration
(the statement holds for every admissible `skips`), so changing or removing
skips among admissible configurations changes only values, never the output
shape. -/
theorem nerf_forward_batch_output_shape (D W ic icv oc : ℕ) (skips : List ℕ)
    (uvd : Bool) (start : ℕ) (wI : ℕ → ℕ → ℕ → ℚ) (bI : ℕ → ℕ → ℚ)
    (xs : List (List ℚ)) (hsk : (D - 1) ∉ skips)
    (h : ∀ x ∈ xs, x.length = ic + icv) :
    ∃ outs, (NeRF.init D W ic icv oc skips uvd start wI bI).1.forwardBatchChk xs =
        some outs ∧
      outs.length = xs.length ∧
      ∀ o ∈ outs, o.length = (if uvd then 4 else oc) := by
  induction xs with
  | nil => exact ⟨[], rfl, rfl, by simp⟩
  | cons x t ih =>
    obtain ⟨y, hy, hylen⟩ :=
      forwardChk_init_shape D W ic icv oc skips uvd start wI bI x (h x (by simp)) hsk
    obtain ⟨outs, houts, hlen, hall⟩ := ih (fun z hz => h z (by simp [hz]))
    refine ⟨y :: outs, ?_, by simp [hlen], ?_⟩
    · simp [NeRF.forwardBatchChk, hy, houts]
    · intro o ho
      rcases List.mem_cons.mp ho with rfl | ho'
      · exact hylen
      · exact hall o ho'

/-- Witness for the amended C5 at a concrete batch: `D = 8`, `skips = [4]`
(the `create_model` configuration), shape-checked forward. -/
theorem nerf_forward_batch_output_shape_witness :
    ((8 : ℕ) - 1 ∉ ([4] : List ℕ)) ∧
    (∀ x ∈ [[(0 : ℚ), 0]], x.length = 1 + 1) ∧
    ∃ outs, (NeRF.init 8 2 1 1 5 [4] true 0 wZero bZero).1.forwardBatchChk
        [[(0 : ℚ), 0]] = some outs ∧
      outs.length = [[(0 : ℚ), 0]].length ∧
      ∀ o ∈ outs, o.length = (if true then 4 else 5) :=
  ⟨by decide, by decide,
    nerf_forward_batch_output_shape 8 2 1 1 5 [4] true 0 wZero bZero
      [[0, 0]] (by decide) (by decide)⟩

/-- Counterexample to C5 as stated, in the shape-checked model.  First: a
network constructed exactly as `create_model` does when
`num_fine_samples > 0` (so `output_ch = 5`) with `use_viewdirs = True`,
`D = 8`, `skips = [4]` produces rows of 4 channels, not `output_ch = 5`
(the view-dependent head always emits `cat([rgb, alpha])`, ignoring
`output_ch`).  Second: the claim's "regardless of skip configuration" also
fails: at `D = 2`, `skips = [1]` (skip index `D - 1`), `forward` produces no
output at all on a correctly-sized input — the skip concat after the last
trunk layer widens the features to `W + input_ch` and the `Linear(W, _)`
output head raises a matmul shape error. -/
theorem nerf_forward_output_ch_counterexample :
    ((NeRF.init 8 2 1 1 5 [4] true 0 wZero bZero).1.forwardBatchChk
        [[(0 : ℚ), 0]]).map (fun out => out.map List.length) = some [4] ∧
    (4 : ℕ) ≠ 5 ∧
    ([(0 : ℚ), 0] : List ℚ).length = 1 + 1 ∧
    (NeRF.init 2 2 1 1 4 [1] false 0 wZero bZero).1.forwardChk [(0 : ℚ), 0] =
      none := by
  exact ⟨by decide, by decide, by decide, by decide⟩

/-- C6: on a freshly constructed network, `forward` fails (the split of the
input raises) for every input whose channel count differs from
`input_ch + input_ch_views`, and for every input with the correct count the
split succeeds losslessly (the two parts reassemble to the input, so nothing
is truncated) and `forward` returns a value. -/
theorem nerf_forward_channel_mismatch (D W ic icv oc : ℕ) (skips : List ℕ)
    (uvd : Bool) (start : ℕ) (wI : ℕ → ℕ → ℕ → ℚ) (bI : ℕ → ℕ → ℚ) (x : List ℚ) :
    (x.length ≠ ic + icv →
      (NeRF.init D W ic icv oc skips uvd start wI bI).1.forward x = none) ∧
    (x.length = ic + icv →
      splitTwo x ic icv = some (x.take ic, x.drop ic) ∧
      x.take ic ++ x.drop ic = x ∧
      ((NeRF.init D W ic icv oc skips uvd start wI bI).1.forward x).isSome = true) := by
  constructor
  · intro hne
    cases uvd <;> simp [NeRF.forward, NeRF.init, splitTwo, hne]
  · intro he
    refine ⟨by simp [splitTwo, he], List.take_append_drop _ _, ?_⟩
    obtain ⟨y, hy, -⟩ :=
      forward_init_shape D W ic icv oc skips uvd start wI bI x he
    simp [hy]

/-- Witness for C6: a concrete malformed input is rejected and a concrete
well-formed input is split losslessly and evaluated. -/
theorem nerf_forward_channel_mismatch_witness :
    (([(0 : ℚ)] : List ℚ).length ≠ 1 + 1 ∧
      (NeRF.init 2 2 1 1 4 [4] false 0 wZero bZero).1.forward [(0 : ℚ)] = none) ∧
    (([(0 : ℚ), 0] : List ℚ).length = 1 + 1 ∧
      (splitTwo [(0 : ℚ), 0] 1 1 = some ([(0 : ℚ), 0].take 1, [(0 : ℚ), 0].drop 1) ∧
        [(0 : ℚ), 0].take 1 ++ [(0 : ℚ), 0].drop 1 = [(0 : ℚ), 0] ∧
        ((NeRF.init 2 2 1 1 4 [4] false 0 wZero
          bZero).1.forward [(0 : ℚ), 0]).isSome = true)) :=
  ⟨⟨by decide,
      (nerf_forward_channel_mismatch 2 2 1 1 4 [4] false 0 wZero bZero [0]).1
        (by decide)⟩,
    ⟨by decide,
      (nerf_forward_channel_mismatch 2 2 1 1 4 [4] false 0 wZero bZero [0, 0]).2
        (by decide)⟩⟩

/-- C8: when `use_viewdirs` is false, the output of `forward` depends only
on the first `input_ch` channels: two inputs agreeing on their first
`input_ch` channels (but possibly differing in the trailing
`input_ch_views` channels) produce equal outputs. -/
theorem nerf_forward_view_independent (D W ic icv oc : ℕ) (skips : List ℕ)
    (start : ℕ) (wI : ℕ → ℕ → ℕ → ℚ) (bI : ℕ → ℕ → ℚ) (x₁ x₂ : List ℚ)
    (h₁ : x₁.length = ic + icv) (h₂ : x₂.length = ic + icv)
    (hx : x₁.take ic = x₂.take ic) :
    (NeRF.init D W ic icv oc skips false start wI bI).1.forward x₁ =
      (NeRF.init D W ic icv oc skips false start wI bI).1.forward x₂ := by
  rw [forward_init_false_eq D W ic icv oc skips start wI bI x₁ h₁,
    forward_init_false_eq D W ic icv oc skips start wI bI x₂ h₂, hx]

/-- C7: `create_model` always constructs one coarse `NeRF`; it constructs a
second fine `NeRF` if and only if `num_fine_samples > 0`, structurally
identical (same `input_ch`, `input_ch_views`, `skips`, `use_viewdirs`, and
matching `output_ch` as witnessed by the output head's channel count) except
that depth and width come from the fine settings; otherwise `model_fine` is
`None`.  The two instances share no parameter objects (disjoint `pids`), and
every parameter of both was freshly allocated within this single
construction (all `pids` lie in `[start, next)`). -/
theorem create_model_fine_network (args : Args) (near far : ℚ)
    (embedOutCh : ℕ → ℕ → ℕ) (start : ℕ) (wI : ℕ → ℕ → ℕ → ℚ) (bI : ℕ → ℕ → ℚ) :
    (args.num_fine_samples = 0 →
      (create_model args near far embedOutCh start wI bI).model_fine = none) ∧
    (0 < args.num_fine_samples → ∃ f,
      (create_model args near far embedOutCh start wI bI).model_fine = some f ∧
      f.input_ch = (create_model args near far embedOutCh start wI bI).model.input_ch ∧
      f.input_ch_views =
        (create_model args near far embedOutCh start wI bI).model.input_ch_views ∧
      f.skips = (create_model args near far embedOutCh start wI bI).model.skips ∧
      f.use_viewdirs =
        (create_model args near far embedOutCh start wI bI).model.use_viewdirs ∧
      f.D = args.netdepth_fine ∧
      f.W = args.netwidth_fine ∧
      f.output_linear.map (fun l => l.bias.length) =
        (create_model args near far embedOutCh start wI bI).model.output_linear.map
          (fun l => l.bias.length) ∧
      f.pids.Disjoint (create_model args near far embedOutCh start wI bI).model.pids ∧
      (∀ p ∈ f.pids,
        start ≤ p ∧ p < (create_model args near far embedOutCh start wI bI).next) ∧
      (∀ p ∈ (create_model args near far embedOutCh start wI bI).model.pids,
        start ≤ p ∧ p < (create_model args near far embedOutCh start wI bI).next)) := by
  constructor
  · intro h0
    simp [create_model, h0]
  · intro hpos
    have hmodel : (create_model args near far embedOutCh start wI bI).model =
        (NeRF.init args.netdepth args.netwidth
          (embedOutCh args.multires args.i_embed)
          (if args.use_viewdirs then embedOutCh args.multires_views args.i_embed else 0)
          5 [4] args.use_viewdirs start wI bI).1 := by
      simp [create_model, hpos]
    have hfine : (create_model args near far embedOutCh start wI bI).model_fine =
        some (NeRF.init args.netdepth_fine args.netwidth_fine
          (embedOutCh args.multires args.i_embed)
          (if args.use_viewdirs then embedOutCh args.multires_views args.i_embed else 0)
          5 [4] args.use_viewdirs
          (NeRF.init args.netdepth args.netwidth
            (embedOutCh args.multires args.i_embed)
            (if args.use_viewdirs then embedOutCh args.multires_views args.i_embed
              else 0)
            5 [4] args.use_viewdirs start wI bI).2 wI bI).1 := by
      simp [create_model, hpos]
    have hnext : (create_model args near far embedOutCh start wI bI).next =
        (NeRF.init args.netdepth_fine args.netwidth_fine
          (embedOutCh args.multires args.i_embed)
          (if args.use_viewdirs then embedOutCh args.multires_views args.i_embed else 0)
          5 [4] args.use_viewdirs
          (NeRF.init args.netdepth args.netwidth
            (embedOutCh args.multires args.i_embed)
            (if args.use_viewdirs then embedOutCh args.multires_views args.i_embed
              else 0)
            5 [4] args.use_viewdirs start wI bI).2 wI bI).2 := by
      simp [create_model, hpos]
    refine ⟨_, hfine, ?_, ?_, ?_, ?_, ?_, ?_, ?_, ?_, ?_, ?_⟩
    · rw [hmodel, init_input_ch, init_input_ch]
    · rw [hmodel, init_input_ch_views, init_input_ch_views]
    · rw [hmodel, init_skips, init_skips]
    · rw [hmodel, init_use_viewdirs, init_use_viewdirs]
    · rw [init_D]
    · rw [init_W]
    · rw [hmodel, init_output_bias_length, init_output_bias_length]
    · intro p hpf hpc
      rw [hmodel] at hpc
      have hf := pids_init_bound _ _ _ _ _ _ _ _ _ _ _ hpf
      have hc := pids_init_bound _ _ _ _ _ _ _ _ _ _ _ hpc
      omega
    · intro p hpf
      rw [hnext]
      have hf := pids_init_bound _ _ _ _ _ _ _ _ _ _ _ hpf
      have hle := init_le_snd args.netdepth args.netwidth
        (embedOutCh args.multires args.i_embed)
        (if args.use_viewdirs then embedOutCh args.multires_views args.i_embed else 0)
        5 [4] args.use_viewdirs start wI bI
      omega
    · intro p hpc
      rw [hmodel] at hpc
      rw [hnext]
      have hc := pids_init_bound _ _ _ _ _ _ _ _ _ _ _ hpc
      have hle := init_le_snd args.netdepth_fine args.netwidth_fine
        (embedOutCh args.multires args.i_embed)
        (if args.use_viewdirs then embedOutCh args.multires_views args.i_embed else 0)
        5 [4] args.use_viewdirs
        (NeRF.init args.netdepth args.netwidth
          (embedOutCh args.multires args.i_embed)
          (if args.use_viewdirs then embedOutCh args.multires_views args.i_embed
            else 0)
          5 [4] args.use_viewdirs start wI bI).2 wI bI
      omega

/-- Witness for C7: with `num_fine_samples = 0` no fine network is built,
and with `num_fine_samples = 1` a structurally identical,
parameter-disjoint fine network is built. -/
theorem create_model_fine_network_witness :
    ((argsNoFine.num_fine_samples = 0) ∧
      (create_model argsNoFine 2 6 (fun _ _ => 1) 0 wZero bZero).model_fine = none) ∧
    ((0 < argsFine.num_fine_samples) ∧
      ∃ f, (create_model argsFine 2 6 (fun _ _ => 1) 0 wZero bZero).model_fine =
          some f ∧
        f.input_ch = (create_model argsFine 2 6 (fun _ _ => 1) 0 wZero
          bZero).model.input_ch ∧
        f.input_ch_views = (create_model argsFine 2 6 (fun _ _ => 1) 0 wZero
          bZero).model.input_ch_views ∧
        f.skips = (create_model argsFine 2 6 (fun _ _ => 1) 0 wZero bZero).model.skips ∧
        f.use_viewdirs = (create_model argsFine 2 6 (fun _ _ => 1) 0 wZero
          bZero).model.use_viewdirs ∧
        f.D = argsFine.netdepth_fine ∧
        f.W = argsFine.netwidth_fine ∧
        f.output_linear.map (fun l => l.bias.length) =
          (create_model argsFine 2 6 (fun _ _ => 1) 0 wZero
            bZero).model.output_linear.map (fun l => l.bias.length) ∧
        f.pids.Disjoint
          (create_model argsFine 2 6 (fun _ _ => 1) 0 wZero bZero).model.pids ∧
        (∀ p ∈ f.pids,
          0 ≤ p ∧ p < (create_model argsFine 2 6 (fun _ _ => 1) 0 wZero bZero).next) ∧
        (∀ p ∈ (create_model argsFine 2 6 (fun _ _ => 1) 0 wZero bZero).model.pids,
          0 ≤ p ∧ p < (create_model argsFine 2 6 (fun _ _ => 1) 0 wZero bZero).next)) :=
  ⟨⟨rfl, (create_model_fine_network argsNoFine 2 6 (fun _ _ => 1) 0 wZero bZero).1 rfl⟩,
    ⟨by decide,
      (create_model_fine_network argsFine 2 6 (fun _ _ => 1) 0 wZero bZero).2
        (by decide)⟩⟩

/-- Witness for C8: two concrete inputs sharing the point part but with
different view parts give the same output. -/
theorem nerf_forward_view_independent_witness :
    (([(0 : ℚ), 1] : List ℚ).length = 1 + 1) ∧
    (([(0 : ℚ), 2] : List ℚ).length = 1 + 1) ∧
    ([(0 : ℚ), 1] : List ℚ).take 1 = ([(0 : ℚ), 2] : List ℚ).take 1 ∧
    (NeRF.init 2 2 1 1 4 [4] false 0 wZero bZero).1.forward [(0 : ℚ), 1] =
      (NeRF.init 2 2 1 1 4 [4] false 0 wZero bZero).1.forward [(0 : ℚ), 2] :=
  ⟨by decide, by decide, by decide,
    nerf_forward_view_independent 2 2 1 1 4 [4] 0 wZero bZero [0, 1] [0, 2]
      (by decide) (by decide) (by decide)⟩

end PeRF
